import Mathlib

/-!
Verification of `src/research/db_to_parquet.py` (`sqlite_to_parquet`).

The Python function exports a SQLite table to Parquet, either as one file
(unpartitioned mode) or as one `data.parquet` file per distinct combination
of partition-column values, in Hive-style directories `col=val/...`.
Rows are streamed in chunks (`pd.read_sql_query(..., chunksize=...)`), each
chunk converted with `pa.Table.from_pandas` and appended through a
`pq.ParquetWriter` whose schema is fixed by the first non-empty chunk.
Everything after `sqlite3.connect` runs inside `try ... except Exception ...
finally: conn.close()`.

The shallow embedding below models:
  * SQLite values (`NULL`, `INTEGER`, `TEXT`; `REAL`/`BLOB` are omitted as no
    claim depends on them), tables as a column list plus a row list;
  * SQLite query semantics used by the script: `SELECT DISTINCT`,
    `WHERE col = ?` equality (`NULL` compares false), `ORDER BY`;
  * pandas chunked reads and the per-chunk arrow schema inference of
    `pa.Table.from_pandas` (an all-`INTEGER` column infers `int64`,
    integers mixed with `NULL` infer `float64`, a text-bearing column
    infers `string`, an all-`NULL` column infers the arrow `null` type),
    and pyarrow's `ParquetWriter.write_table`, which raises when a chunk's
    schema differs from the schema the writer was created with;
  * the function's observable effects as a trace (connection open/close,
    directory creation, query execution, writer open/write/close, logging)
    plus whether an exception propagates to the caller.
The filesystem itself is not modelled beyond the effect trace; the
`os.path.exists(db_path)` check is abstracted as the boolean `dbExists`.
Paths are represented relative to `output_path` as their list of
`os.path.join` segments.
-/

/-- A SQLite storage value as the script can observe it through the Python
DB-API: `NULL`, an integer, or a text string. -/
inductive Value where
  | null
  | int (i : Int)
  | text (s : String)
deriving DecidableEq, Repr

/-- Python `str(v)` for a value fetched from SQLite, as used by the f-string
`f"{col}={val}"` when building partition directory names. -/
def Value.render : Value → String
  | .null => "None"
  | .int i => toString i
  | .text s => s

def Value.isInt : Value → Bool
  | .int _ => true
  | _ => false

def Value.isText : Value → Bool
  | .text _ => true
  | _ => false

def Value.isNull : Value → Bool
  | .null => true
  | _ => false

/-- A SQLite table: column names in order, and rows as value lists (row `r`
stores the value of column `i` at position `i`). -/
structure Table where
  cols : List String
  rows : List (List Value)
deriving DecidableEq, Repr

/-- SQLite `=` as used by the parameterized filter `col = ?`: a comparison
with `NULL` on either side is not true, otherwise values of the same storage
class compare structurally and values of different classes are unequal (the
script binds the very values returned by `SELECT DISTINCT`, so no affinity
conversion is involved). -/
def sqlEq : Value → Value → Bool
  | .null, _ => false
  | _, .null => false
  | a, b => a == b

/-- SQLite `ORDER BY` comparison on two values: `NULL` sorts first, then
integers by value, then text by code-point order. -/
def sqliteLe (a b : Value) : Bool :=
  match a, b with
  | .null, _ => true
  | _, .null => false
  | .int i, .int j => i ≤ j
  | .int _, .text _ => true
  | .text _, .int _ => false
  | .text s, .text t => !(decide (t < s))

/-- Lexicographic comparison of the projections of two rows onto the
`ORDER BY` columns. -/
def lexLe : List Value → List Value → Bool
  | [], _ => true
  | _ :: _, [] => true
  | a :: as, b :: bs => if a == b then lexLe as bs else sqliteLe a b

/-- Value of column `c` in `row` of table `t` (`NULL` if absent; queries
naming an absent column are rejected before this is ever relevant). -/
def getCol (t : Table) (row : List Value) (c : String) : Value :=
  match t.cols.findIdx? (· == c) with
  | some i => row.getD i .null
  | none => .null

/-- Whether every column name in `cs` exists in the table; a query naming a
missing column fails with SQLite's "no such column" error. -/
def Table.validCols (t : Table) (cs : List String) : Bool :=
  cs.all fun c => t.cols.contains c

/-- Projection of a row onto the partition columns: the row's
partition-key tuple, as produced by `SELECT DISTINCT p1, ..., pk`. -/
def projKey (t : Table) (pcols : List String) (row : List Value) : List Value :=
  pcols.map (getCol t row)

/-- Result set of `SELECT DISTINCT <pcols> FROM <table>` (order of the
distinct combinations is unspecified by SQLite; `dedup` is one choice). -/
def distinctCombos (t : Table) (pcols : List String) : List (List Value) :=
  (t.rows.map (projKey t pcols)).dedup

/-- `SELECT DISTINCT` including the failure case for a missing column. -/
def distinctQuery (t : Table) (pcols : List String) :
    Except String (List (List Value)) :=
  if t.validCols pcols then .ok (distinctCombos t pcols)
  else .error "no such column"

/-- The `WHERE p1 = ? AND ... AND pk = ?` filter of the per-partition
query, with the key's values bound as parameters. -/
def matchesKey (t : Table) (pcols : List String) (key : List Value)
    (row : List Value) : Bool :=
  (List.zip pcols key).all fun cv => sqlEq (getCol t row cv.1) cv.2

/-- Apply the `ORDER BY` clause: the script emits no clause when `order_by`
is falsy (rows then come back in rowid order, modelled as table order), and
otherwise sorts by the listed columns. -/
def sortRows (t : Table) (ocols : List String) (rows : List (List Value)) :
    List (List Value) :=
  if ocols.isEmpty then rows
  else rows.mergeSort fun r s =>
    lexLe (ocols.map (getCol t r)) (ocols.map (getCol t s))

/-- Result rows of `SELECT * FROM t WHERE <key filter> ORDER BY <ocols>`. -/
def partitionRows (t : Table) (pcols ocols : List String)
    (key : List Value) : List (List Value) :=
  sortRows t ocols (t.rows.filter (matchesKey t pcols key))

/-- The per-partition query including the missing-column failure case. -/
def selectWhereOrder (t : Table) (pcols : List String) (key : List Value)
    (ocols : List String) : Except String (List (List Value)) :=
  if t.validCols pcols && t.validCols ocols then
    .ok (partitionRows t pcols ocols key)
  else .error "no such column"

/-- `SELECT * FROM t ORDER BY <ocols>` for the unpartitioned mode. -/
def selectAll (t : Table) (ocols : List String) :
    Except String (List (List Value)) :=
  if t.validCols ocols then .ok (sortRows t ocols t.rows)
  else .error "no such column"

/-- Helper for `chunksOf`: walks the result rows accumulating the current
chunk (reversed) and emitting it when it reaches `cs` rows. -/
def chunkAux (cs : Nat) : List (List Value) → List (List Value) →
    List (List (List Value))
  | [], cur => if cur.isEmpty then [] else [cur.reverse]
  | x :: xs, cur =>
    if (x :: cur).length == cs then (x :: cur).reverse :: chunkAux cs xs []
    else chunkAux cs xs (x :: cur)

/-- Cursor batching done by `pd.read_sql_query(..., chunksize=cs)`: chunks
of `cs` rows, the last one possibly smaller.  `cs = 0` encodes a
non-positive Python chunk size, for which `cursor.fetchmany` never hits its
size limit and returns all remaining rows as a single batch. -/
def chunksOf (cs : Nat) (l : List (List Value)) : List (List (List Value)) :=
  if cs = 0 then (if l.isEmpty then [] else [l])
  else chunkAux cs l []

/-- Chunking for the Python-level `chunksize` argument, an arbitrary int. -/
def pdChunks (cs : Int) (l : List (List Value)) : List (List (List Value)) :=
  chunksOf cs.toNat l

/-- Arrow type of one column of the table `pa.Table.from_pandas` builds
from one fetched chunk — the granularity at which
`ParquetWriter.write_table` compares schemas: an all-integer column infers
`int64`; integers mixed with SQL `NULL` (Python `None` → `NaN`) become a
`float64` (double) column; a text-bearing object column (`NULL`s allowed
inside it) becomes `string`; and an all-`None` object column becomes the
arrow `null` type — so a text chunk and an all-`NULL` chunk of the same
column have different schemas and the writer rejects one after the other. -/
inductive PDType where
  | int64
  | float64
  | string
  | nullType
deriving DecidableEq, Repr

def colAt (i : Nat) (row : List Value) : Value := row.getD i .null

/-- A chunk column mixing integers and text would make `from_pandas`
itself raise before any schema comparison; that failure mode is outside
this model (and outside `stableTable`), so such a column is mapped to
`string` here and no claim below relies on its behaviour. -/
def colDtype (vs : List Value) : PDType :=
  if vs.any (·.isText) then .string
  else if vs.all (·.isNull) then .nullType
  else if vs.any (·.isNull) then .float64
  else .int64

/-- Schema of the arrow table built from one chunk
(`pa.Table.from_pandas(chunk).schema`): the inferred arrow type of each of
the query's `ncols` columns.  Column names are identical across chunks of
one query and are omitted. -/
def chunkSchema (ncols : Nat) (chunk : List (List Value)) : List PDType :=
  (List.range ncols).map fun i => colDtype (chunk.map (colAt i))

/-- Message of the error `pq.ParquetWriter.write_table` raises when the
chunk's schema differs from the schema the writer was created with. -/
def schemaMismatchMsg : String :=
  "Table schema does not match schema used to create file"

/-- The `logging.info(f"  -> Dumped {path_parts}: {part_rows} rows")` text. -/
def dumpedMsg (segs : List String) (n : Nat) : String :=
  "  -> Dumped " ++ toString segs ++ ": " ++ toString n ++ " rows"

/-- The `logging.error(f"An error occurred: {e}")` text of the top-level
exception handler. -/
def errLogMsg (e : String) : String := "An error occurred: " ++ e

/-- One observable effect of a run.  Paths are lists of path segments
relative to `output_path`; `[]` is `output_path` itself. -/
inductive Eff where
  | openConn
  | closeConn
  | queryDistinct (pcols : List String)
  | mkdirOut
  | mkdirParent
  | queryFull
  | mkdirPartition (segs : List String)
  | queryPartition (key : List Value)
  | openWriter (path : List String) (schema : List PDType)
  | writeBatch (path : List String) (rows : List (List Value))
  | closeWriter (path : List String)
  | logInfo (msg : String)
  | logError (msg : String)
deriving DecidableEq, Repr

def Eff.isWriteBatch : Eff → Bool
  | .writeBatch _ _ => true
  | _ => false

def Eff.isOpenWriter : Eff → Bool
  | .openWriter _ _ => true
  | _ => false

def Eff.isLogError : Eff → Bool
  | .logError _ => true
  | _ => false

/-- Result of the `for chunk in pd.read_sql_query(...)` writer loop. -/
structure LoopRes where
  effs : List Eff
  rows : Nat
  schema : Option (List PDType)
  err : Option String
deriving DecidableEq, Repr

/-- The writer loop shared by both modes: skip empty chunks; on the first
non-empty chunk create the `ParquetWriter`, fixing its schema from that
chunk; write each chunk; `write_table` raises on a schema mismatch, which
aborts the loop (leaving the writer unclosed). -/
def writeLoop (path : List String) (ncols : Nat) :
    Option (List PDType) → Nat → List (List (List Value)) → LoopRes
  | w, acc, [] => ⟨[], acc, w, none⟩
  | w, acc, c :: rest =>
    if c.isEmpty then writeLoop path ncols w acc rest
    else
      match w with
      | none =>
        let s := chunkSchema ncols c
        let r := writeLoop path ncols (some s) (acc + c.length) rest
        ⟨.openWriter path s :: .writeBatch path c :: r.effs, r.rows, r.schema, r.err⟩
      | some ws =>
        if chunkSchema ncols c = ws then
          let r := writeLoop path ncols (some ws) (acc + c.length) rest
          ⟨.writeBatch path c :: r.effs, r.rows, r.schema, r.err⟩
        else ⟨[], acc, some ws, some schemaMismatchMsg⟩

/-- One whole write scope (`writer = None; for chunk in ...: ...;
if writer: writer.close()`): the writer is closed only when the loop
finishes without raising. -/
def writeScope (path : List String) (ncols : Nat)
    (chunks : List (List (List Value))) : List Eff × Nat × Option String :=
  let r := writeLoop path ncols none 0 chunks
  match r.err with
  | none =>
    (r.effs ++ (match r.schema with
      | some _ => [.closeWriter path]
      | none => []), r.rows, none)
  | some e => (r.effs, r.rows, some e)

/-- Hive-style directory segments `["p1=v1", ..., "pk=vk"]` built by the
loop `path_parts.append(f"{col}={val}")`. -/
def partitionSegs (pcols : List String) (key : List Value) : List String :=
  (List.zip pcols key).map fun cv => cv.1 ++ "=" ++ cv.2.render

/-- Body of the per-combination loop: build the filter and the partition
directory, `os.makedirs` the directory, execute the filtered ordered query,
stream its chunks into `partition_dir/data.parquet`, then log the row
count.  Returns (effects, rows written, uncaught error if any). -/
def runPartition (t : Table) (pcols ocols : List String) (cs : Int)
    (key : List Value) : List Eff × Nat × Option String :=
  let segs := partitionSegs pcols key
  match selectWhereOrder t pcols key ocols with
  | .error e => ([.mkdirPartition segs, .queryPartition key], 0, some e)
  | .ok rows =>
    let r := writeScope (segs ++ ["data.parquet"]) t.cols.length (pdChunks cs rows)
    (.mkdirPartition segs :: .queryPartition key :: r.1
        ++ (match r.2.2 with
          | none => [.logInfo (dumpedMsg segs r.2.1)]
          | some _ => []),
      r.2.1, r.2.2)

/-- The `for combo in distinct_combinations` loop.  An exception in one
partition propagates, so the remaining combinations are not processed. -/
def runPartitions (t : Table) (pcols ocols : List String) (cs : Int) :
    List (List Value) → List Eff × Nat × Option String
  | [] => ([], 0, none)
  | k :: ks =>
    let r1 := runPartition t pcols ocols cs k
    match r1.2.2 with
    | some e => (r1.1, r1.2.1, some e)
    | none =>
      let r2 := runPartitions t pcols ocols cs ks
      (r1.1 ++ r2.1, r1.2.1 + r2.2.1, r2.2.2)

/-- The partitioned branch of the function body: discover the distinct
combinations, create `output_path`, then export each combination. -/
def runPartitionedMode (t : Table) (pcols ocols : List String) (cs : Int) :
    List Eff × Option String :=
  match distinctQuery t pcols with
  | .error e =>
    ([.logInfo ("Starting partitioned dump by " ++ toString pcols ++ "..."),
      .queryDistinct pcols], some e)
  | .ok combos =>
    let r := runPartitions t pcols ocols cs combos
    ([.logInfo ("Starting partitioned dump by " ++ toString pcols ++ "..."),
      .queryDistinct pcols,
      .logInfo ("Found " ++ toString combos.length ++ " distinct combinations."),
      .mkdirOut] ++ r.1
      ++ (match r.2.2 with
        | none => [.logInfo ("Partitioned dump finished. Total rows: "
            ++ toString r.2.1)]
        | some _ => []),
      r.2.2)

/-- The unpartitioned branch: create the output file's parent directory,
run the full ordered query, stream its chunks into `output_path`. -/
def runFullMode (t : Table) (ocols : List String) (cs : Int) :
    List Eff × Option String :=
  match selectAll t ocols with
  | .error e =>
    ([.logInfo "Starting full dump...", .mkdirParent, .queryFull], some e)
  | .ok rows =>
    let r := writeScope [] t.cols.length (pdChunks cs rows)
    ([.logInfo "Starting full dump...", .mkdirParent, .queryFull] ++ r.1
      ++ (match r.2.2 with
        | none => [.logInfo ("Total rows processed: " ++ toString r.2.1)]
        | some _ => []),
      r.2.2)

/-- Dispatch on `if partition_cols:` — Python falsiness, so both `None` and
an empty list select the unpartitioned mode. -/
def runMode (t : Table) (partition_cols : Option (List String))
    (ocols : List String) (cs : Int) : List Eff × Option String :=
  match partition_cols with
  | some pcols =>
    if pcols.isEmpty then runFullMode t ocols cs
    else runPartitionedMode t pcols ocols cs
  | none => runFullMode t ocols cs

/-- Overall result of one call: the effect trace, and the exception that
propagates to the caller, if any. -/
structure RunResult where
  trace : List Eff
  raised : Option String
deriving DecidableEq, Repr

/-- Shallow embedding of `sqlite_to_parquet(db_path, table_name,
output_path, partition_cols, chunksize, order_by)`.  `dbExists` abstracts
`os.path.exists(db_path)`; when it is false the function raises
`FileNotFoundError` before opening any connection.  Otherwise the
connection is opened, the body runs inside `try ... except Exception as e:
logging.error(...)` — so no body error ever propagates — and
`finally: conn.close()` closes the connection last.  (The comma-splitting
of string-valued `partition_cols` / `order_by` arguments is outside the
model: both are taken as already-split lists; `order_by = none` or `[]` is
the falsy case emitting no `ORDER BY` clause.) -/
def sqlite_to_parquet (dbExists : Bool) (t : Table)
    (partition_cols : Option (List String)) (chunksize : Int)
    (order_by : Option (List String)) : RunResult :=
  if dbExists then
    let r := runMode t partition_cols (order_by.getD []) chunksize
    { trace := .openConn :: (r.1
        ++ (match r.2 with
          | some e => [.logError (errLogMsg e)]
          | none => [])
        ++ [.closeConn]),
      raised := none }
  else { trace := [], raised := some "FileNotFoundError" }

/-- Rows of a partition key's output file as actually written: the batches
that `write_table` appended to that partition's `data.parquet`,
concatenated. -/
def batchesAt (p : List String) : List Eff → List (List (List Value))
  | [] => []
  | .writeBatch q rs :: es =>
    if q = p then rs :: batchesAt p es else batchesAt p es
  | _ :: es => batchesAt p es

def partWrittenRows (t : Table) (pcols ocols : List String) (cs : Int)
    (key : List Value) : List (List Value) :=
  (batchesAt (partitionSegs pcols key ++ ["data.parquet"])
    (runPartition t pcols ocols cs key).1).flatten

/-- Rows written to the unpartitioned output file across one whole call. -/
def unpartWrittenRows (t : Table) (ocols : List String) (cs : Int) :
    List (List Value) :=
  (batchesAt [] (sqlite_to_parquet true t none cs (some ocols)).trace).flatten

/-- A key has no SQL `NULL` component. -/
def noNullKey (k : List Value) : Bool := k.all fun v => !v.isNull

/-- Characters of one `f"{col}={val}"` path segment. -/
def segChars (c : String) (v : Value) : List Char :=
  c.data ++ '=' :: v.render.data

/-- `os.path.join` on non-empty relative segments: join with `/`. -/
def joinSegsChars : List (List Char) → List Char
  | [] => []
  | [s] => s
  | s :: s2 :: rest => s ++ '/' :: joinSegsChars (s2 :: rest)

/-- Characters of the partition directory path relative to `output_path`:
the joined `col=val` segments, in partition-column order. -/
def partitionPathChars (pcols : List String) (key : List Value) : List Char :=
  joinSegsChars ((List.zip pcols key).map fun cv => segChars cv.1 cv.2)

/-- A table is chunk-stable when each column holds a single storage class
throughout — entirely `INTEGER`, entirely `TEXT`, or entirely `NULL` — so
every non-empty chunk of every query over it infers the same arrow type
for that column.  A column mixing `TEXT` with `NULL` is *not* stable: an
all-`NULL` chunk infers the arrow `null` type while a text-bearing chunk
infers `string`, and the writer rejects the mismatch. -/
def stableTable (t : Table) : Prop :=
  ∀ i < t.cols.length, (∀ r ∈ t.rows, (colAt i r).isInt = true) ∨
    (∀ r ∈ t.rows, (colAt i r).isText = true) ∨
    (∀ r ∈ t.rows, (colAt i r).isNull = true)

/-- The schema that every non-empty chunk of a chunk-stable table infers. -/
def fixedSchema (t : Table) : List PDType :=
  (List.range t.cols.length).map fun i =>
    if t.rows.all (fun r => (colAt i r).isInt) then PDType.int64
    else if t.rows.all (fun r => (colAt i r).isText) then PDType.string
    else PDType.nullType

theorem sqlEq_iff (a b : Value) : sqlEq a b = true ↔ a = b ∧ b.isNull = false := by
  cases a <;> cases b <;> simp [sqlEq, Value.isNull]

theorem isText_eq_false_of_isInt {v : Value} (h : v.isInt = true) :
    v.isText = false := by
  cases v <;> simp_all [Value.isInt, Value.isText]

theorem isNull_eq_false_of_isInt {v : Value} (h : v.isInt = true) :
    v.isNull = false := by
  cases v <;> simp_all [Value.isInt, Value.isNull]

theorem isNull_of_not_int_not_text {v : Value} (h1 : v.isInt = false)
    (h2 : v.isText = false) : v.isNull = true := by
  cases v <;> simp_all [Value.isInt, Value.isText, Value.isNull]

theorem isText_eq_false_of_isNull {v : Value} (h : v.isNull = true) :
    v.isText = false := by
  cases v <;> simp_all [Value.isNull, Value.isText]

theorem isInt_eq_false_of_isText {v : Value} (h : v.isText = true) :
    v.isInt = false := by
  cases v <;> simp_all [Value.isInt, Value.isText]

theorem isInt_eq_false_of_isNull {v : Value} (h : v.isNull = true) :
    v.isInt = false := by
  cases v <;> simp_all [Value.isInt, Value.isNull]

theorem colDtype_int {vs : List Value} (hne : vs ≠ [])
    (hall : ∀ v ∈ vs, v.isInt = true) : colDtype vs = .int64 := by
  have ht : vs.any (·.isText) = false := by
    rw [List.any_eq_false]
    intro v hv
    simp [isText_eq_false_of_isInt (hall v hv)]
  have hn : vs.any (·.isNull) = false := by
    rw [List.any_eq_false]
    intro v hv
    simp [isNull_eq_false_of_isInt (hall v hv)]
  have hnn : vs.all (·.isNull) = false := by
    rw [List.all_eq_false]
    obtain ⟨x, hx⟩ := List.exists_mem_of_ne_nil vs hne
    exact ⟨x, hx, by simp [isNull_eq_false_of_isInt (hall x hx)]⟩
  simp [colDtype, ht, hn, hnn]

theorem colDtype_text {vs : List Value} (hne : vs ≠ [])
    (hall : ∀ v ∈ vs, v.isText = true) : colDtype vs = .string := by
  have ht : vs.any (·.isText) = true := by
    obtain ⟨x, hx⟩ := List.exists_mem_of_ne_nil vs hne
    exact List.any_eq_true.mpr ⟨x, hx, hall x hx⟩
  simp [colDtype, ht]

theorem colDtype_null {vs : List Value}
    (hall : ∀ v ∈ vs, v.isNull = true) : colDtype vs = .nullType := by
  have ht : vs.any (·.isText) = false := by
    rw [List.any_eq_false]
    intro v hv
    simp [isText_eq_false_of_isNull (hall v hv)]
  have hnn : vs.all (·.isNull) = true := List.all_eq_true.mpr hall
  simp [colDtype, ht, hnn]

/-! ### Chunking lemmas -/

theorem chunkAux_flatten (cs : Nat) :
    ∀ (l cur : List (List Value)),
      (chunkAux cs l cur).flatten = cur.reverse ++ l := by
  intro l
  induction l with
  | nil =>
    intro cur
    by_cases h : cur.isEmpty
    · simp [chunkAux, h, List.isEmpty_iff.mp h]
    · simp [chunkAux, h]
  | cons x xs ih =>
    intro cur
    simp only [chunkAux]
    split
    · simp [ih, List.reverse_cons, List.append_assoc]
    · simp [ih, List.reverse_cons, List.append_assoc]

theorem chunksOf_flatten (cs : Nat) (l : List (List Value)) :
    (chunksOf cs l).flatten = l := by
  unfold chunksOf
  split
  · by_cases h : l.isEmpty
    · simp [h, List.isEmpty_iff.mp h]
    · simp [h]
  · simp [chunkAux_flatten]

theorem pdChunks_flatten (cs : Int) (l : List (List Value)) :
    (pdChunks cs l).flatten = l := chunksOf_flatten _ _

theorem mem_of_mem_pdChunks {cs : Int} {l : List (List Value)}
    {c : List (List Value)} (hc : c ∈ pdChunks cs l) {x : List Value}
    (hx : x ∈ c) : x ∈ l := by
  have : x ∈ (pdChunks cs l).flatten := List.mem_flatten.mpr ⟨c, hc, hx⟩
  rwa [pdChunks_flatten] at this

theorem pdChunks_nil (cs : Int) : pdChunks cs [] = [] := by
  simp [pdChunks, chunksOf, chunkAux]

theorem flatten_filter_ne_nil (L : List (List (List Value))) :
    (L.filter fun c => !c.isEmpty).flatten = L.flatten := by
  induction L with
  | nil => rfl
  | cons c rest ih =>
    by_cases h : c.isEmpty
    · simp [List.filter_cons, h, ih, List.isEmpty_iff.mp h]
    · simp [List.filter_cons, h, ih]

/-! ### Sorting lemmas -/

theorem sortRows_perm (t : Table) (ocols : List String)
    (rows : List (List Value)) : (sortRows t ocols rows).Perm rows := by
  unfold sortRows
  split
  · exact List.Perm.refl _
  · exact List.mergeSort_perm _ _

theorem mem_sortRows {t : Table} {ocols : List String}
    {rows : List (List Value)} {r : List Value} :
    r ∈ sortRows t ocols rows ↔ r ∈ rows :=
  (sortRows_perm t ocols rows).mem_iff

/-! ### Writer-loop lemmas -/

theorem writeLoop_nil (p : List String) (n : Nat) (w : Option (List PDType))
    (acc : Nat) : writeLoop p n w acc [] = ⟨[], acc, w, none⟩ := rfl

theorem writeLoop_cons (p : List String) (n : Nat) (w : Option (List PDType))
    (acc : Nat) (c : List (List Value)) (rest : List (List (List Value))) :
    writeLoop p n w acc (c :: rest) =
      if c.isEmpty then writeLoop p n w acc rest
      else
        match w with
        | none =>
          let s := chunkSchema n c
          let r := writeLoop p n (some s) (acc + c.length) rest
          ⟨.openWriter p s :: .writeBatch p c :: r.effs, r.rows, r.schema, r.err⟩
        | some ws =>
          if chunkSchema n c = ws then
            let r := writeLoop p n (some ws) (acc + c.length) rest
            ⟨.writeBatch p c :: r.effs, r.rows, r.schema, r.err⟩
          else ⟨[], acc, some ws, some schemaMismatchMsg⟩ := rfl

theorem writeLoop_effs_writer (p : List String) (n : Nat) :
    ∀ (L : List (List (List Value))) (w : Option (List PDType)) (acc : Nat)
      (e : Eff), e ∈ (writeLoop p n w acc L).effs →
      (∃ s, e = Eff.openWriter p s) ∨ ∃ rs, e = Eff.writeBatch p rs := by
  intro L
  induction L with
  | nil => intro w acc e he; simp [writeLoop_nil] at he
  | cons c rest ih =>
    intro w acc e he
    rw [writeLoop_cons] at he
    by_cases hc : c.isEmpty
    · rw [if_pos hc] at he
      exact ih _ _ _ he
    · rw [if_neg hc] at he
      cases w with
      | none =>
        simp only [List.mem_cons] at he
        rcases he with rfl | rfl | he
        · exact .inl ⟨_, rfl⟩
        · exact .inr ⟨_, rfl⟩
        · exact ih _ _ _ he
      | some ws =>
        dsimp only at he
        by_cases hs : chunkSchema n c = ws
        · rw [if_pos hs] at he
          simp only [List.mem_cons] at he
          rcases he with rfl | he
          · exact .inr ⟨_, rfl⟩
          · exact ih _ _ _ he
        · rw [if_neg hs] at he
          simp at he

theorem writeLoop_ok_of_uniform_some (p : List String) (n : Nat)
    (s : List PDType) :
    ∀ (L : List (List (List Value))) (acc : Nat),
      (∀ c ∈ L, ¬c.isEmpty = true → chunkSchema n c = s) →
      (writeLoop p n (some s) acc L).err = none := by
  intro L
  induction L with
  | nil => intro acc _; rfl
  | cons c rest ih =>
    intro acc h
    rw [writeLoop_cons]
    by_cases hc : c.isEmpty
    · rw [if_pos hc]
      exact ih _ fun x hx => h x (List.mem_cons_of_mem _ hx)
    · rw [if_neg hc]
      dsimp only
      rw [if_pos (h c (List.mem_cons_self _ _) hc)]
      exact ih _ fun x hx => h x (List.mem_cons_of_mem _ hx)

theorem writeLoop_ok_of_uniform_none (p : List String) (n : Nat)
    (s : List PDType) :
    ∀ (L : List (List (List Value))) (acc : Nat),
      (∀ c ∈ L, ¬c.isEmpty = true → chunkSchema n c = s) →
      (writeLoop p n none acc L).err = none := by
  intro L
  induction L with
  | nil => intro acc _; rfl
  | cons c rest ih =>
    intro acc h
    rw [writeLoop_cons]
    by_cases hc : c.isEmpty
    · rw [if_pos hc]
      exact ih _ fun x hx => h x (List.mem_cons_of_mem _ hx)
    · rw [if_neg hc]
      dsimp only
      show (writeLoop p n (some (chunkSchema n c)) (acc + c.length) rest).err = none
      rw [h c (List.mem_cons_self _ _) hc]
      exact writeLoop_ok_of_uniform_some p n s rest _
        fun x hx => h x (List.mem_cons_of_mem _ hx)

theorem batchesAt_nil (p : List String) : batchesAt p [] = [] := rfl

theorem batchesAt_cons_other {e : Eff} (p : List String)
    (h : e.isWriteBatch = false) (es : List Eff) :
    batchesAt p (e :: es) = batchesAt p es := by
  cases e <;> simp_all [batchesAt, Eff.isWriteBatch]

theorem batchesAt_cons_mkdirPartition (p segs : List String) (es : List Eff) :
    batchesAt p (Eff.mkdirPartition segs :: es) = batchesAt p es := rfl

theorem batchesAt_cons_queryPartition (p : List String) (k : List Value)
    (es : List Eff) :
    batchesAt p (Eff.queryPartition k :: es) = batchesAt p es := rfl

theorem batchesAt_cons_writeBatch (p q : List String)
    (rs : List (List Value)) (es : List Eff) :
    batchesAt p (Eff.writeBatch q rs :: es) =
      if q = p then rs :: batchesAt p es else batchesAt p es := rfl

theorem batchesAt_append (p : List String) :
    ∀ (l m : List Eff), batchesAt p (l ++ m) = batchesAt p l ++ batchesAt p m := by
  intro l
  induction l with
  | nil => intro m; rfl
  | cons e es ih =>
    intro m
    cases e <;> simp only [List.cons_append, batchesAt] <;>
      (first
        | exact ih m
        | (split <;> simp [ih]))

theorem writeLoop_batches_of_ok (p : List String) (n : Nat) :
    ∀ (L : List (List (List Value))) (w : Option (List PDType)) (acc : Nat),
      (writeLoop p n w acc L).err = none →
      batchesAt p (writeLoop p n w acc L).effs =
        L.filter fun c => !c.isEmpty := by
  intro L
  induction L with
  | nil => intro w acc _; rfl
  | cons c rest ih =>
    intro w acc h
    rw [writeLoop_cons] at h ⊢
    by_cases hc : c.isEmpty
    · rw [if_pos hc] at h ⊢
      rw [ih _ _ h]
      simp [List.filter_cons, hc]
    · rw [if_neg hc] at h ⊢
      cases w with
      | none =>
        dsimp only at h ⊢
        rw [batchesAt_cons_other p (by rfl), batchesAt_cons_writeBatch,
          if_pos rfl, ih _ _ h]
        simp [List.filter_cons, hc]
      | some ws =>
        dsimp only at h ⊢
        by_cases hs : chunkSchema n c = ws
        · rw [if_pos hs] at h ⊢
          rw [batchesAt_cons_writeBatch, if_pos rfl, ih _ _ h]
          simp [List.filter_cons, hc]
        · rw [if_neg hs] at h
          simp at h

/-! ### Write-scope lemmas -/

theorem writeScope_err_eq (p : List String) (n : Nat)
    (L : List (List (List Value))) :
    (writeScope p n L).2.2 = (writeLoop p n none 0 L).err := by
  simp only [writeScope]
  cases (writeLoop p n none 0 L).err <;> rfl

theorem writeScope_eq_of_ok {p : List String} {n : Nat}
    {L : List (List (List Value))}
    (h : (writeLoop p n none 0 L).err = none) :
    writeScope p n L =
      ((writeLoop p n none 0 L).effs
        ++ (match (writeLoop p n none 0 L).schema with
          | some _ => [Eff.closeWriter p]
          | none => []), (writeLoop p n none 0 L).rows, none) := by
  simp only [writeScope]
  rw [h]

theorem writeScope_eq_of_err {p : List String} {n : Nat}
    {L : List (List (List Value))} {e : String}
    (h : (writeLoop p n none 0 L).err = some e) :
    writeScope p n L =
      ((writeLoop p n none 0 L).effs, (writeLoop p n none 0 L).rows, some e) := by
  simp only [writeScope]
  rw [h]

theorem batchesAt_schema_match (p : List String) (o : Option (List PDType)) :
    batchesAt p (match o with
      | some _ => [Eff.closeWriter p]
      | none => []) = [] := by
  cases o <;> rfl

theorem writeScope_batches_of_ok {p : List String} {n : Nat}
    {L : List (List (List Value))}
    (h : (writeLoop p n none 0 L).err = none) :
    batchesAt p (writeScope p n L).1 = L.filter fun c => !c.isEmpty := by
  rw [writeScope_eq_of_ok h]
  rw [batchesAt_append, batchesAt_schema_match, List.append_nil]
  exact writeLoop_batches_of_ok p n L none 0 h

theorem writeScope_effs_writer {p : List String} {n : Nat}
    {L : List (List (List Value))} {e : Eff}
    (he : e ∈ (writeScope p n L).1) :
    (∃ s, e = Eff.openWriter p s) ∨ (∃ rs, e = Eff.writeBatch p rs) ∨
      e = Eff.closeWriter p := by
  rcases herr : (writeLoop p n none 0 L).err with _ | er
  · rw [writeScope_eq_of_ok herr] at he
    rcases List.mem_append.mp he with hl | hr
    · rcases writeLoop_effs_writer p n L none 0 e hl with h | h
      · exact .inl h
      · exact .inr (.inl h)
    · rcases hsch : (writeLoop p n none 0 L).schema with _ | s
      · rw [hsch] at hr; simp at hr
      · rw [hsch] at hr
        simp only [List.mem_singleton] at hr
        exact .inr (.inr hr)
  · rw [writeScope_eq_of_err herr] at he
    rcases writeLoop_effs_writer p n L none 0 e he with h | h
    · exact .inl h
    · exact .inr (.inl h)

/-! ### Uniform chunk schemas from chunk-stable tables -/

theorem uniform_of_stable (t : Table) (hst : stableTable t)
    {l : List (List Value)} (hsub : ∀ x ∈ l, x ∈ t.rows) (cs : Int) :
    ∀ c ∈ pdChunks cs l, ¬c.isEmpty = true →
      chunkSchema t.cols.length c = fixedSchema t := by
  intro c hc hce
  have hcne : c ≠ [] := fun h => hce (by simp [h])
  have hmemrows : ∀ x ∈ c, x ∈ t.rows :=
    fun x hx => hsub x (mem_of_mem_pdChunks hc hx)
  unfold chunkSchema fixedSchema
  apply List.map_congr_left
  intro i hi
  have hi2 : i < t.cols.length := List.mem_range.mp hi
  obtain ⟨x0, hx0⟩ := List.exists_mem_of_ne_nil c hcne
  have hx0r : x0 ∈ t.rows := hmemrows x0 hx0
  rcases hst i hi2 with hA | hB | hC
  · have hints : ∀ v ∈ c.map (colAt i), v.isInt = true := by
      intro v hv
      obtain ⟨x, hx, rfl⟩ := List.mem_map.mp hv
      exact hA x (hmemrows x hx)
    rw [colDtype_int (by simpa using hcne) hints]
    rw [if_pos (List.all_eq_true.mpr hA)]
  · have htexts : ∀ v ∈ c.map (colAt i), v.isText = true := by
      intro v hv
      obtain ⟨x, hx, rfl⟩ := List.mem_map.mp hv
      exact hB x (hmemrows x hx)
    rw [colDtype_text (by simpa using hcne) htexts]
    have hnotint : t.rows.all (fun r => (colAt i r).isInt) = false := by
      rw [List.all_eq_false]
      exact ⟨x0, hx0r, by simp [isInt_eq_false_of_isText (hB x0 hx0r)]⟩
    rw [if_neg (by simp [hnotint]), if_pos (List.all_eq_true.mpr hB)]
  · have hnulls : ∀ v ∈ c.map (colAt i), v.isNull = true := by
      intro v hv
      obtain ⟨x, hx, rfl⟩ := List.mem_map.mp hv
      exact hC x (hmemrows x hx)
    rw [colDtype_null hnulls]
    have hnotint : t.rows.all (fun r => (colAt i r).isInt) = false := by
      rw [List.all_eq_false]
      exact ⟨x0, hx0r, by simp [isInt_eq_false_of_isNull (hC x0 hx0r)]⟩
    have hnottext : t.rows.all (fun r => (colAt i r).isText) = false := by
      rw [List.all_eq_false]
      exact ⟨x0, hx0r, by simp [isText_eq_false_of_isNull (hC x0 hx0r)]⟩
    rw [if_neg (by simp [hnotint]), if_neg (by simp [hnottext])]

/-! ### Query-result extraction lemmas -/

theorem selectAll_ok {t : Table} {ocols : List String}
    (hvo : t.validCols ocols = true) :
    selectAll t ocols = .ok (sortRows t ocols t.rows) := by
  simp [selectAll, hvo]

theorem selectWhereOrder_ok {t : Table} {pcols ocols : List String}
    (key : List Value) (hvp : t.validCols pcols = true)
    (hvo : t.validCols ocols = true) :
    selectWhereOrder t pcols key ocols = .ok (partitionRows t pcols ocols key) := by
  simp [selectWhereOrder, hvp, hvo]

theorem selectWhereOrder_ok_rows {t : Table} {pcols ocols : List String}
    {key : List Value} {rows : List (List Value)}
    (h : selectWhereOrder t pcols key ocols = .ok rows) :
    rows = partitionRows t pcols ocols key := by
  unfold selectWhereOrder at h
  split at h
  · injection h with h
    exact h.symm
  · cases h

/-! ### Bridging the modes to the written rows -/

theorem runFullMode_facts {t : Table} {ocols : List String} {cs : Int}
    (hvo : t.validCols ocols = true)
    (hloop : (writeLoop [] t.cols.length none 0
      (pdChunks cs (sortRows t ocols t.rows))).err = none) :
    (runFullMode t ocols cs).2 = none ∧
    batchesAt [] (runFullMode t ocols cs).1 =
      (pdChunks cs (sortRows t ocols t.rows)).filter fun c => !c.isEmpty := by
  unfold runFullMode
  rw [selectAll_ok hvo]
  dsimp only
  rw [writeScope_eq_of_ok hloop]
  constructor
  · rfl
  · dsimp only
    simp only [batchesAt_append, batchesAt_schema_match]
    rw [show batchesAt []
        [Eff.logInfo "Starting full dump...", Eff.mkdirParent, Eff.queryFull]
        = [] from rfl]
    rw [show ∀ s, batchesAt [] [Eff.logInfo s] = [] from fun s => rfl]
    simp only [List.append_nil, List.nil_append]
    exact writeLoop_batches_of_ok _ _ _ _ _ hloop

theorem unpartWritten_eq {t : Table} {ocols : List String} {cs : Int}
    (hst : stableTable t) (hvo : t.validCols ocols = true) :
    unpartWrittenRows t ocols cs = sortRows t ocols t.rows := by
  have hsub : ∀ x ∈ sortRows t ocols t.rows, x ∈ t.rows :=
    fun x hx => mem_sortRows.mp hx
  have hloop : (writeLoop [] t.cols.length none 0
      (pdChunks cs (sortRows t ocols t.rows))).err = none :=
    writeLoop_ok_of_uniform_none _ _ _ _ _ (uniform_of_stable t hst hsub cs)
  obtain ⟨herr, hbatch⟩ := runFullMode_facts hvo hloop
  unfold unpartWrittenRows sqlite_to_parquet
  rw [if_pos rfl]
  dsimp only
  rw [show (some ocols : Option (List String)).getD [] = ocols from rfl]
  rw [show runMode t none ocols cs = runFullMode t ocols cs from rfl]
  rw [herr]
  rw [batchesAt_cons_other [] (by rfl), batchesAt_append, batchesAt_append,
    hbatch]
  rw [show batchesAt [] [Eff.closeConn] = [] from rfl,
    batchesAt_nil, List.append_nil, List.append_nil]
  rw [flatten_filter_ne_nil, pdChunks_flatten]

theorem runPartition_facts {t : Table} {pcols ocols : List String} {cs : Int}
    (key : List Value) (hvp : t.validCols pcols = true)
    (hvo : t.validCols ocols = true)
    (hloop : (writeLoop (partitionSegs pcols key ++ ["data.parquet"])
      t.cols.length none 0
      (pdChunks cs (partitionRows t pcols ocols key))).err = none) :
    (runPartition t pcols ocols cs key).2.2 = none ∧
    partWrittenRows t pcols ocols cs key = partitionRows t pcols ocols key := by
  unfold runPartition partWrittenRows
  rw [selectWhereOrder_ok key hvp hvo]
  dsimp only
  unfold runPartition
  rw [selectWhereOrder_ok key hvp hvo]
  dsimp only
  rw [writeScope_eq_of_ok hloop]
  constructor
  · rfl
  · dsimp only
    simp only [batchesAt_cons_mkdirPartition, batchesAt_cons_queryPartition,
      batchesAt_append, batchesAt_schema_match]
    rw [show ∀ s, batchesAt (partitionSegs pcols key ++ ["data.parquet"])
        [Eff.logInfo s] = [] from fun s => rfl]
    simp only [List.append_nil]
    rw [writeLoop_batches_of_ok _ _ _ _ _ hloop]
    rw [flatten_filter_ne_nil, pdChunks_flatten]

theorem partWritten_eq_of_uniform {t : Table} {pcols ocols : List String}
    {cs : Int} (key : List Value) (hst : stableTable t)
    (hvp : t.validCols pcols = true) (hvo : t.validCols ocols = true) :
    partWrittenRows t pcols ocols cs key = partitionRows t pcols ocols key := by
  have hsub : ∀ x ∈ partitionRows t pcols ocols key, x ∈ t.rows := by
    intro x hx
    exact (List.mem_filter.mp (mem_sortRows.mp hx)).1
  exact (runPartition_facts key hvp hvo
    (writeLoop_ok_of_uniform_none _ _ _ _ _
      (uniform_of_stable t hst hsub cs))).2

theorem partWritten_eq_of_ok {t : Table} {pcols ocols : List String}
    {cs : Int} {key : List Value}
    (h : (runPartition t pcols ocols cs key).2.2 = none) :
    partWrittenRows t pcols ocols cs key = partitionRows t pcols ocols key := by
  unfold partWrittenRows
  rcases hsel : selectWhereOrder t pcols key ocols with e | rows
  · unfold runPartition at h
    rw [hsel] at h
    cases h
  · have hrows := selectWhereOrder_ok_rows hsel
    subst hrows
    unfold runPartition at h ⊢
    rw [hsel] at h ⊢
    dsimp only at h ⊢
    have hscope : (writeScope (partitionSegs pcols key ++ ["data.parquet"])
        t.cols.length (pdChunks cs (partitionRows t pcols ocols key))).2.2
        = none := h
    rw [writeScope_err_eq] at hscope
    simp only [batchesAt_cons_mkdirPartition, batchesAt_cons_queryPartition,
      batchesAt_append]
    rw [writeScope_batches_of_ok hscope]
    rw [show ∀ (o : Option String), batchesAt
        (partitionSegs pcols key ++ ["data.parquet"])
        (match o with
          | none => [Eff.logInfo (dumpedMsg (partitionSegs pcols key)
              (writeScope (partitionSegs pcols key ++ ["data.parquet"])
                t.cols.length
                (pdChunks cs (partitionRows t pcols ocols key))).2.1)]
          | some _ => []) = [] from fun o => by cases o <;> rfl]
    rw [List.append_nil, flatten_filter_ne_nil, pdChunks_flatten]

/-- Every batch the writer loop emits is one of the chunks it was given,
whether or not the loop later aborts on a schema mismatch. -/
theorem writeLoop_batches_mem (p : List String) (n : Nat) :
    ∀ (L : List (List (List Value))) (w : Option (List PDType)) (acc : Nat)
      (rs : List (List Value)),
      rs ∈ batchesAt p (writeLoop p n w acc L).effs → rs ∈ L := by
  intro L
  induction L with
  | nil => intro w acc rs h; simp [writeLoop_nil, batchesAt] at h
  | cons c rest ih =>
    intro w acc rs h
    rw [writeLoop_cons] at h
    by_cases hc : c.isEmpty
    · rw [if_pos hc] at h
      exact List.mem_cons_of_mem _ (ih _ _ _ h)
    · rw [if_neg hc] at h
      cases w with
      | none =>
        dsimp only at h
        rw [batchesAt_cons_other _ (by rfl), batchesAt_cons_writeBatch,
          if_pos rfl] at h
        rcases List.mem_cons.mp h with rfl | h
        · exact List.mem_cons_self _ _
        · exact List.mem_cons_of_mem _ (ih _ _ _ h)
      | some ws =>
        dsimp only at h
        by_cases hs : chunkSchema n c = ws
        · rw [if_pos hs] at h
          rw [batchesAt_cons_writeBatch, if_pos rfl] at h
          rcases List.mem_cons.mp h with rfl | h
          · exact List.mem_cons_self _ _
          · exact List.mem_cons_of_mem _ (ih _ _ _ h)
        · rw [if_neg hs] at h
          simp [batchesAt] at h

/-- The batches written in a scope are the batches of its writer loop,
whether the loop finished (and the writer was closed) or aborted. -/
theorem batchesAt_writeScope (p : List String) (n : Nat)
    (L : List (List (List Value))) :
    batchesAt p (writeScope p n L).1 =
      batchesAt p (writeLoop p n none 0 L).effs := by
  rcases h : (writeLoop p n none 0 L).err with _ | e
  · rw [writeScope_eq_of_ok h]
    rw [batchesAt_append, batchesAt_schema_match, List.append_nil]
  · rw [writeScope_eq_of_err h]

/-- Unconditionally — also in runs that abort mid-partition — every row
written for a partition key is a row of that key's query result. -/
theorem partWritten_subset {t : Table} {pcols ocols : List String}
    {cs : Int} {key : List Value} {r : List Value}
    (hr : r ∈ partWrittenRows t pcols ocols cs key) :
    r ∈ partitionRows t pcols ocols key := by
  unfold partWrittenRows at hr
  obtain ⟨rs, hrs, hrrs⟩ := List.mem_flatten.mp hr
  rcases hsel : selectWhereOrder t pcols key ocols with e | rows
  · unfold runPartition at hrs
    rw [hsel] at hrs
    dsimp only at hrs
    simp [batchesAt_cons_mkdirPartition, batchesAt_cons_queryPartition,
      batchesAt] at hrs
  · have hrows := selectWhereOrder_ok_rows hsel
    subst hrows
    unfold runPartition at hrs
    rw [hsel] at hrs
    dsimp only at hrs
    simp only [batchesAt_cons_mkdirPartition, batchesAt_cons_queryPartition,
      batchesAt_append] at hrs
    rw [show ∀ (o : Option String), batchesAt
        (partitionSegs pcols key ++ ["data.parquet"])
        (match o with
          | none => [Eff.logInfo (dumpedMsg (partitionSegs pcols key)
              (writeScope (partitionSegs pcols key ++ ["data.parquet"])
                t.cols.length
                (pdChunks cs (partitionRows t pcols ocols key))).2.1)]
          | some _ => []) = [] from fun o => by cases o <;> rfl] at hrs
    rw [List.append_nil, batchesAt_writeScope] at hrs
    exact mem_of_mem_pdChunks
      (writeLoop_batches_mem _ _ _ _ _ _ hrs) hrrs

/-! ### The partition filter characterised by key projection -/

theorem matchesKey_iff (t : Table) :
    ∀ (pcols : List String) (key row : List Value),
      key.length = pcols.length →
      (matchesKey t pcols key row = true ↔
        projKey t pcols row = key ∧ noNullKey key = true) := by
  intro pcols
  induction pcols with
  | nil =>
    intro key row hlen
    have hk : key = [] := List.length_eq_zero.mp hlen
    subst hk
    simp [matchesKey, projKey, noNullKey]
  | cons c cstail ih =>
    intro key row hlen
    cases key with
    | nil => simp at hlen
    | cons v vs =>
      have hlen2 : vs.length = cstail.length := by simpa using hlen
      have hrec := ih vs row hlen2
      simp only [matchesKey, List.zip_cons_cons, List.all_cons,
        Bool.and_eq_true, sqlEq_iff, projKey, List.map_cons,
        List.cons.injEq, noNullKey, Bool.not_eq_true'] at hrec ⊢
      rw [hrec]
      tauto

/-- Align the `BEq` instance on rows with the one `DecidableEq`-based
permutation lemmas use, so the row-count lemmas below compose. -/
@[reducible] instance (priority := 2000) instBEqRow : BEq (List Value) :=
  instBEqOfDecidableEq

theorem nodup_distinctCombos (t : Table) (pcols : List String) :
    (distinctCombos t pcols).Nodup := List.nodup_dedup _

theorem mem_distinctCombos {t : Table} (pcols : List String)
    {r : List Value} (hr : r ∈ t.rows) :
    projKey t pcols r ∈ distinctCombos t pcols :=
  List.mem_dedup.mpr (List.mem_map_of_mem _ hr)

theorem combos_length {t : Table} {pcols : List String} {k : List Value}
    (hk : k ∈ distinctCombos t pcols) : k.length = pcols.length := by
  obtain ⟨r, _, rfl⟩ := List.mem_map.mp (List.mem_dedup.mp hk)
  simp [projKey]

theorem count_partitionRows (t : Table) (pcols ocols : List String)
    (key r : List Value) (hlen : key.length = pcols.length) :
    (partitionRows t pcols ocols key).count r =
      if projKey t pcols r = key ∧ noNullKey key = true
      then t.rows.count r else 0 := by
  unfold partitionRows
  rw [(sortRows_perm t ocols _).count_eq r]
  by_cases h : projKey t pcols r = key ∧ noNullKey key = true
  · rw [if_pos h]
    exact List.count_filter ((matchesKey_iff t pcols key r hlen).mpr h)
  · rw [if_neg h]
    apply List.count_eq_zero_of_not_mem
    intro hmem
    exact h ((matchesKey_iff t pcols key r hlen).mp
      (List.mem_filter.mp hmem).2)

theorem sum_map_ite_nodup {β : Type} [DecidableEq β] :
    ∀ (L : List β) (x : β) (m : Nat), L.Nodup →
      (L.map fun k => if k = x then m else 0).sum = if x ∈ L then m else 0 := by
  intro L
  induction L with
  | nil => intro x m _; simp
  | cons k ks ih =>
    intro x m hnd
    obtain ⟨hk, hnd2⟩ := List.nodup_cons.mp hnd
    rw [List.map_cons, List.sum_cons, ih x m hnd2]
    by_cases hkx : k = x
    · subst hkx
      rw [if_pos rfl, if_neg hk, if_pos (List.mem_cons_self k ks), Nat.add_zero]
    · rw [if_neg hkx, Nat.zero_add]
      have hmem : (x ∈ k :: ks) ↔ (x ∈ ks) := by
        constructor
        · intro h
          rcases List.mem_cons.mp h with h | h
          · exact absurd h.symm hkx
          · exact h
        · exact fun h => List.mem_cons_of_mem _ h
      rw [if_congr hmem rfl rfl]

/-- The discovered partitions, taken together, recover exactly the rows
whose partition-column projection contains no SQL `NULL`. -/
theorem partition_union_perm (t : Table) (pcols ocols : List String) :
    ((distinctCombos t pcols).map fun k =>
      partitionRows t pcols ocols k).flatten.Perm
      (t.rows.filter fun r => noNullKey (projKey t pcols r)) := by
  rw [List.perm_iff_count]
  intro r
  rw [List.count_flatten, List.map_map]
  have hcongr : (distinctCombos t pcols).map
      (List.count r ∘ fun k => partitionRows t pcols ocols k) =
      (distinctCombos t pcols).map fun k =>
        if k = projKey t pcols r ∧ noNullKey (projKey t pcols r) = true
        then t.rows.count r else 0 := by
    apply List.map_congr_left
    intro k hk
    show (partitionRows t pcols ocols k).count r = _
    rw [count_partitionRows t pcols ocols k r (combos_length hk)]
    apply if_congr _ rfl rfl
    constructor
    · rintro ⟨h1, h2⟩
      refine ⟨h1.symm, ?_⟩
      rw [h1]
      exact h2
    · rintro ⟨h1, h2⟩
      refine ⟨h1.symm, ?_⟩
      rw [h1]
      exact h2
  rw [hcongr]
  by_cases hnn : noNullKey (projKey t pcols r) = true
  · have hstep : ((distinctCombos t pcols).map fun k =>
        if k = projKey t pcols r ∧ noNullKey (projKey t pcols r) = true
        then t.rows.count r else 0) =
        (distinctCombos t pcols).map fun k =>
          if k = projKey t pcols r then t.rows.count r else 0 := by
      apply List.map_congr_left
      intro k _
      by_cases h : k = projKey t pcols r <;> simp [h, hnn]
    rw [hstep, sum_map_ite_nodup _ _ _ (nodup_distinctCombos t pcols)]
    by_cases hr : r ∈ t.rows
    · rw [if_pos (mem_distinctCombos pcols hr)]
      exact (@List.count_filter _ _ _
        (fun x => noNullKey (projKey t pcols x)) r t.rows hnn).symm
    · have h0 : t.rows.count r = 0 := List.count_eq_zero_of_not_mem hr
      have h0f : (t.rows.filter fun x =>
          noNullKey (projKey t pcols x)).count r = 0 :=
        List.count_eq_zero_of_not_mem
          fun hmem => hr (List.mem_filter.mp hmem).1
      rw [h0, h0f]
      split <;> rfl
  · have hstep : ((distinctCombos t pcols).map fun k =>
        if k = projKey t pcols r ∧ noNullKey (projKey t pcols r) = true
        then t.rows.count r else 0) =
        (distinctCombos t pcols).map fun _ => 0 := by
      apply List.map_congr_left
      intro k _
      simp [hnn]
    rw [hstep]
    have h0f : (t.rows.filter fun x =>
        noNullKey (projKey t pcols x)).count r = 0 := by
      apply List.count_eq_zero_of_not_mem
      intro hmem
      exact hnn (List.mem_filter.mp hmem).2
    rw [h0f]
    simp

/-- A row in the result set of one partition's query projects to exactly
that partition's key; two different keys can never fetch the same row. -/
theorem partitionRows_disjoint (t : Table) (pcols ocols : List String)
    {k1 k2 r : List Value} (hl1 : k1.length = pcols.length)
    (hl2 : k2.length = pcols.length)
    (h1 : r ∈ partitionRows t pcols ocols k1)
    (h2 : r ∈ partitionRows t pcols ocols k2) : k1 = k2 := by
  have m1 := (matchesKey_iff t pcols k1 r hl1).mp
    (List.mem_filter.mp (mem_sortRows.mp h1)).2
  have m2 := (matchesKey_iff t pcols k2 r hl2).mp
    (List.mem_filter.mp (mem_sortRows.mp h2)).2
  rw [← m1.1, ← m2.1]

/-! ### Path-construction lemmas -/

theorem noSlashCancel :
    ∀ (a b t1 t2 : List Char), '/' ∉ a → '/' ∉ b →
      a ++ '/' :: t1 = b ++ '/' :: t2 → a = b ∧ t1 = t2 := by
  intro a
  induction a with
  | nil =>
    intro b t1 t2 _ hb h
    cases b with
    | nil => simpa using h
    | cons c bs =>
      simp only [List.nil_append, List.cons_append, List.cons.injEq] at h
      exact absurd (h.1 ▸ List.mem_cons_self _ _) hb
  | cons c as ih =>
    intro b t1 t2 ha hb h
    cases b with
    | nil =>
      simp only [List.nil_append, List.cons_append, List.cons.injEq] at h
      exact absurd (h.1 ▸ List.mem_cons_self _ _) ha
    | cons d bs =>
      simp only [List.cons_append, List.cons.injEq] at h
      obtain ⟨rfl, h2⟩ := h
      have ha2 : '/' ∉ as := fun hx => ha (List.mem_cons_of_mem _ hx)
      have hb2 : '/' ∉ bs := fun hx => hb (List.mem_cons_of_mem _ hx)
      obtain ⟨rfl, rfl⟩ := ih bs t1 t2 ha2 hb2 h2
      exact ⟨rfl, rfl⟩

/-! ### Per-partition loop lemmas -/

theorem runPartition_queryPartition_mem {t : Table} {pcols ocols : List String}
    {cs : Int} {k k2 : List Value}
    (h : Eff.queryPartition k2 ∈ (runPartition t pcols ocols cs k).1) :
    k2 = k := by
  unfold runPartition at h
  rcases hsel : selectWhereOrder t pcols k ocols with e | rows <;>
    rw [hsel] at h <;> dsimp only at h
  · simp only [List.mem_cons, List.not_mem_nil, or_false] at h
    rcases h with h | h
    · exact Eff.noConfusion h
    · injection h with h2
      try exact h2
  · rcases List.mem_cons.mp h with h | h
    · exact Eff.noConfusion h
    rcases List.mem_cons.mp h with h | h
    · injection h with h2
      try exact h2
    rcases List.mem_append.mp h with h | h
    · rcases writeScope_effs_writer h with ⟨s, hs⟩ | ⟨rs, hs⟩ | hs <;>
        exact Eff.noConfusion hs
    · rcases hmatch : (writeScope (partitionSegs pcols k ++ ["data.parquet"])
          t.cols.length (pdChunks cs rows)).2.2 with _ | er <;>
        simp [hmatch] at h

theorem runPartitions_cons (t : Table) (pcols ocols : List String) (cs : Int)
    (k : List Value) (ks : List (List Value)) :
    runPartitions t pcols ocols cs (k :: ks) =
      (let r1 := runPartition t pcols ocols cs k
       match r1.2.2 with
       | some e => (r1.1, r1.2.1, some e)
       | none =>
         let r2 := runPartitions t pcols ocols cs ks
         (r1.1 ++ r2.1, r1.2.1 + r2.2.1, r2.2.2)) := rfl

theorem runPartitions_cons_err {t : Table} {pcols ocols : List String}
    {cs : Int} {k : List Value} {ks : List (List Value)} {e : String}
    (h : (runPartition t pcols ocols cs k).2.2 = some e) :
    runPartitions t pcols ocols cs (k :: ks) =
      ((runPartition t pcols ocols cs k).1,
        (runPartition t pcols ocols cs k).2.1, some e) := by
  rw [runPartitions_cons]
  simp only [h]

theorem runPartitions_cons_ok {t : Table} {pcols ocols : List String}
    {cs : Int} {k : List Value} {ks : List (List Value)}
    (h : (runPartition t pcols ocols cs k).2.2 = none) :
    runPartitions t pcols ocols cs (k :: ks) =
      ((runPartition t pcols ocols cs k).1
          ++ (runPartitions t pcols ocols cs ks).1,
        (runPartition t pcols ocols cs k).2.1
          + (runPartitions t pcols ocols cs ks).2.1,
        (runPartitions t pcols ocols cs ks).2.2) := by
  rw [runPartitions_cons]
  simp only [h]

/-- When every key of a prefix exports without error and the next key's
export raises, the partition loop's result carries that error and the only
partition queries it ever ran are the prefix keys' and the failing key's —
the keys after the failure are never queried. -/
theorem runPartitions_prefix_err {t : Table} {pcols ocols : List String}
    {cs : Int} {k : List Value} {err : String} :
    ∀ (ks1 : List (List Value)) (ks2 : List (List Value)),
      (∀ x ∈ ks1, (runPartition t pcols ocols cs x).2.2 = none) →
      (runPartition t pcols ocols cs k).2.2 = some err →
      (runPartitions t pcols ocols cs (ks1 ++ k :: ks2)).2.2 = some err ∧
      ∀ k2, Eff.queryPartition k2 ∈
          (runPartitions t pcols ocols cs (ks1 ++ k :: ks2)).1 →
        k2 ∈ ks1 ∨ k2 = k := by
  intro ks1
  induction ks1 with
  | nil =>
    intro ks2 _ hfail
    rw [List.nil_append, runPartitions_cons_err hfail]
    refine ⟨rfl, fun k2 h => ?_⟩
    exact .inr (runPartition_queryPartition_mem h)
  | cons x ks1 ih =>
    intro ks2 hok hfail
    have hx : (runPartition t pcols ocols cs x).2.2 = none :=
      hok x (List.mem_cons_self _ _)
    have hok2 : ∀ y ∈ ks1, (runPartition t pcols ocols cs y).2.2 = none :=
      fun y hy => hok y (List.mem_cons_of_mem _ hy)
    obtain ⟨iherr, ihmem⟩ := ih ks2 hok2 hfail
    rw [List.cons_append, runPartitions_cons_ok hx]
    refine ⟨iherr, fun k2 h => ?_⟩
    rcases List.mem_append.mp h with h | h
    · exact .inl ((runPartition_queryPartition_mem h) ▸
        List.mem_cons_self _ _)
    · rcases ihmem k2 h with h2 | h2
      · exact .inl (List.mem_cons_of_mem _ h2)
      · exact .inr h2

theorem distinctQuery_ok_combos {t : Table} {pcols : List String}
    {combos : List (List Value)}
    (h : distinctQuery t pcols = .ok combos) :
    combos = distinctCombos t pcols ∧ t.validCols pcols = true := by
  unfold distinctQuery at h
  split at h
  · injection h with h
    exact ⟨h.symm, by assumption⟩
  · cases h

/-! ### Claim theorems -/

theorem getLast_cons_append_concat (a c : Eff) (l m : List Eff) :
    (a :: (l ++ m ++ [c])).getLast? = some c := by
  rw [show a :: (l ++ m ++ [c]) = (a :: (l ++ m)) ++ [c] by simp]
  exact List.getLast?_concat _

/-- C8: on every execution of `sqlite_to_parquet` in which the database
connection is opened, the connection is closed before the function returns,
on every exit path — the `finally: conn.close()` makes `closeConn` the last
effect of any trace that contains `openConn`. -/
theorem c8_conn_closed (dbE : Bool) (t : Table) (pc : Option (List String))
    (cs : Int) (ob : Option (List String))
    (h : Eff.openConn ∈ (sqlite_to_parquet dbE t pc cs ob).trace) :
    (sqlite_to_parquet dbE t pc cs ob).trace.getLast? = some Eff.closeConn := by
  cases dbE with
  | false => simp [sqlite_to_parquet] at h
  | true => exact getLast_cons_append_concat _ _ _ _

/-- Witness for C8 at a concrete run: the connection is opened and the
trace ends with `closeConn`. -/
theorem c8_conn_closed_witness :
    Eff.openConn ∈ (sqlite_to_parquet true ⟨["w"], [[Value.int 4]]⟩
      none 7 none).trace ∧
    (sqlite_to_parquet true ⟨["w"], [[Value.int 4]]⟩
      none 7 none).trace.getLast? = some Eff.closeConn :=
  ⟨(by decide), c8_conn_closed true ⟨["w"], [[Value.int 4]]⟩ none 7 none
    (by decide)⟩

/-- C10: once the connection is opened (the database exists), no exception
propagates to the caller — the function's result reports nothing raised —
and any error of the body is logged by the top-level handler instead. -/
theorem c10_swallow_exceptions (t : Table) (pc : Option (List String))
    (cs : Int) (ob : Option (List String)) :
    (sqlite_to_parquet true t pc cs ob).raised = none ∧
    ∀ e, (runMode t pc (ob.getD []) cs).2 = some e →
      Eff.logError (errLogMsg e) ∈ (sqlite_to_parquet true t pc cs ob).trace := by
  constructor
  · rfl
  · intro e he
    show Eff.logError (errLogMsg e) ∈
      Eff.openConn :: ((runMode t pc (ob.getD []) cs).1
        ++ (match (runMode t pc (ob.getD []) cs).2 with
          | some e => [Eff.logError (errLogMsg e)]
          | none => [])
        ++ [Eff.closeConn])
    rw [he]
    simp

/-- Witness for C10 at a concrete erroring run (bad `ORDER BY` column):
the call returns without raising and logs the error. -/
theorem c10_swallow_exceptions_witness :
    (sqlite_to_parquet true ⟨["a"], [[Value.int 1]]⟩ none 5
      (some ["zz"])).raised = none ∧
    Eff.logError (errLogMsg "no such column") ∈
      (sqlite_to_parquet true ⟨["a"], [[Value.int 1]]⟩ none 5
        (some ["zz"])).trace :=
  ⟨(c10_swallow_exceptions ⟨["a"], [[Value.int 1]]⟩ none 5 (some ["zz"])).1,
    (c10_swallow_exceptions ⟨["a"], [[Value.int 1]]⟩ none 5
      (some ["zz"])).2 "no such column" (by decide)⟩

/-- C5, counterexample: with the database present and `chunksize = 0`
(so chunk size ≤ 0), no configuration error is raised before source I/O —
the connection is opened, the call completes normally, and nothing is even
logged as an error, contradicting the claimed `ConfigurationError`. -/
theorem c5_counterexample :
    Eff.openConn ∈ (sqlite_to_parquet true ⟨["a"], [[Value.int 1]]⟩
      none 0 none).trace ∧
    (sqlite_to_parquet true ⟨["a"], [[Value.int 1]]⟩ none 0 none).raised
      = none ∧
    (sqlite_to_parquet true ⟨["a"], [[Value.int 1]]⟩ none 0 none).trace.all
      (fun e => !e.isLogError) = true := by
  decide

/-- C5, amended: the only pre-I/O validation is the existence check on the
database file — a missing file raises `FileNotFoundError` before anything
else happens, while any chunk size (and any output path) proceeds straight
to opening the connection. -/
theorem c5_validation (dbE : Bool) (t : Table) (pc : Option (List String))
    (cs : Int) (ob : Option (List String)) :
    (dbE = false → sqlite_to_parquet dbE t pc cs ob =
      ⟨[], some "FileNotFoundError"⟩) ∧
    (dbE = true →
      (sqlite_to_parquet dbE t pc cs ob).trace.head? = some Eff.openConn) := by
  cases dbE with
  | false =>
    refine ⟨fun _ => rfl, fun h => ?_⟩
    cases h
  | true =>
    refine ⟨fun h => ?_, fun _ => rfl⟩
    cases h

/-- Witness for C5 (amended): both branches at concrete inputs, including a
negative chunk size that still reaches the connection. -/
theorem c5_validation_witness :
    sqlite_to_parquet false ⟨["a"], [[Value.int 1]]⟩ none 1 none =
      ⟨[], some "FileNotFoundError"⟩ ∧
    (sqlite_to_parquet true ⟨["a"], [[Value.int 1]]⟩
      none (-5) none).trace.head? = some Eff.openConn :=
  ⟨(c5_validation false ⟨["a"], [[Value.int 1]]⟩ none 1 none).1 rfl,
    (c5_validation true ⟨["a"], [[Value.int 1]]⟩ none (-5) none).2 rfl⟩

/-- C6: a partition key whose filtered query yields zero rows produces
exactly a directory creation, the query, and a logged `0 rows` notice — no
output file is opened or written, and no error is recorded. -/
theorem c6_zero_row_partition (t : Table) (pcols ocols : List String)
    (cs : Int) (key : List Value)
    (h : selectWhereOrder t pcols key ocols = .ok []) :
    runPartition t pcols ocols cs key =
      ([Eff.mkdirPartition (partitionSegs pcols key), Eff.queryPartition key,
        Eff.logInfo (dumpedMsg (partitionSegs pcols key) 0)], 0, none) := by
  unfold runPartition
  rw [h]
  dsimp only
  rw [pdChunks_nil cs]
  rfl

/-- Witness for C6 at a concrete key with no matching rows. -/
theorem c6_zero_row_partition_witness :
    selectWhereOrder ⟨["q"], [[Value.int 3]]⟩ ["q"] [Value.int 9] [] =
      .ok [] ∧
    runPartition ⟨["q"], [[Value.int 3]]⟩ ["q"] [] 1 [Value.int 9] =
      ([Eff.mkdirPartition ["q=9"], Eff.queryPartition [Value.int 9],
        Eff.logInfo (dumpedMsg ["q=9"] 0)], 0, none) :=
  ⟨rfl, c6_zero_row_partition ⟨["q"], [[Value.int 3]]⟩ ["q"] [] 1
    [Value.int 9] rfl⟩

/-- C9: processing a discovered partition key starts by creating its
directory — `mkdirPartition` is the first effect, before the partition's
query runs — and when that query returns zero rows no `data.parquet`
writer is ever opened, so the directory exists with no file inside. -/
theorem c9_mkdir_before_fetch (t : Table) (pcols ocols : List String)
    (cs : Int) (key : List Value) :
    (∃ rest, (runPartition t pcols ocols cs key).1 =
      Eff.mkdirPartition (partitionSegs pcols key) ::
        Eff.queryPartition key :: rest) ∧
    (selectWhereOrder t pcols key ocols = .ok [] →
      (runPartition t pcols ocols cs key).1.all
        (fun e => !e.isOpenWriter) = true) := by
  constructor
  · unfold runPartition
    rcases hsel : selectWhereOrder t pcols key ocols with e | rows
    · exact ⟨[], rfl⟩
    · exact ⟨_, rfl⟩
  · intro h
    unfold runPartition
    rw [h]
    dsimp only
    rw [pdChunks_nil cs]
    rfl

/-- Witness for C9 at a concrete zero-row key: the directory is created,
and no writer is opened. -/
theorem c9_mkdir_before_fetch_witness :
    selectWhereOrder ⟨["m"], [[Value.int 1]]⟩ ["m"] [Value.int 8] [] =
      .ok [] ∧
    (runPartition ⟨["m"], [[Value.int 1]]⟩ ["m"] [] 2 [Value.int 8]).1.all
      (fun e => !e.isOpenWriter) = true :=
  ⟨rfl, (c9_mkdir_before_fetch ⟨["m"], [[Value.int 1]]⟩ ["m"] [] 2
    [Value.int 8]).2 rfl⟩

/-- C7, counterexample: two distinct partition keys whose values contain
`/` and `=` produce the same joined directory path, so the unescaped
`col=val` mapping is not injective. -/
theorem c7_counterexample :
    [Value.text "1/b=2", Value.text "3"] ≠
      [Value.text "1", Value.text "2/b=3"] ∧
    partitionPathChars ["a", "b"] [Value.text "1/b=2", Value.text "3"] =
      partitionPathChars ["a", "b"] [Value.text "1", Value.text "2/b=3"] := by
  decide

/-- C7, amended: the key-to-path mapping is the deterministic join of
`col=val` segments, and it is injective on keys whose values are text
containing no path separator; values containing `/` (or distinct values
rendering to the same string) can collide. -/
theorem c7_path_injectivity :
    ∀ (pcols : List String) (k1 k2 : List Value),
      k1.length = pcols.length → k2.length = pcols.length →
      (∀ v ∈ k1, ∃ s, v = Value.text s ∧ '/' ∉ s.data) →
      (∀ v ∈ k2, ∃ s, v = Value.text s ∧ '/' ∉ s.data) →
      partitionPathChars pcols k1 = partitionPathChars pcols k2 →
      k1 = k2 := by
  intro pcols
  induction pcols with
  | nil =>
    intro k1 k2 h1 h2 _ _ _
    rw [List.length_eq_zero.mp h1, List.length_eq_zero.mp h2]
  | cons c cstail ih =>
    intro k1 k2 h1 h2 hs1 hs2 heq
    cases k1 with
    | nil => simp at h1
    | cons v vs =>
      cases k2 with
      | nil => simp at h2
      | cons w ws =>
        obtain ⟨s1, rfl, hsf1⟩ := hs1 v (List.mem_cons_self _ _)
        obtain ⟨s2, rfl, hsf2⟩ := hs2 w (List.mem_cons_self _ _)
        have hlen1 : vs.length = cstail.length := by simpa using h1
        have hlen2 : ws.length = cstail.length := by simpa using h2
        cases cstail with
        | nil =>
          have hv : vs = [] := List.length_eq_zero.mp hlen1
          have hw : ws = [] := List.length_eq_zero.mp hlen2
          subst hv
          subst hw
          simp only [partitionPathChars, List.zip_cons_cons, List.zip_nil_left,
            List.map_cons, List.map_nil, joinSegsChars, segChars,
            Value.render] at heq
          have := List.append_cancel_left heq
          simp only [List.cons.injEq, true_and] at this
          rw [String.ext this]
        | cons c2 cs2 =>
          cases vs with
          | nil => simp at hlen1
          | cons v2 vs2 =>
            cases ws with
            | nil => simp at hlen2
            | cons w2 ws2 =>
              simp only [partitionPathChars, List.zip_cons_cons,
                List.map_cons, joinSegsChars] at heq
              rw [show segChars c (Value.text s1) = c.data ++ '=' :: s1.data
                  from rfl,
                show segChars c (Value.text s2) = c.data ++ '=' :: s2.data
                  from rfl] at heq
              rw [List.append_assoc, List.append_assoc] at heq
              have heq2 := List.append_cancel_left heq
              simp only [List.cons_append, List.cons.injEq, true_and] at heq2
              obtain ⟨hd, htl⟩ := noSlashCancel _ _ _ _ hsf1 hsf2 heq2
              have hrest := ih (v2 :: vs2) (w2 :: ws2) hlen1 hlen2
                (fun v hv => hs1 v (List.mem_cons_of_mem _ hv))
                (fun v hv => hs2 v (List.mem_cons_of_mem _ hv))
                (by
                  simp only [partitionPathChars, List.zip_cons_cons,
                    List.map_cons, joinSegsChars]
                  exact htl)
              rw [String.ext hd, hrest]

/-- Witness for C7 (amended) at concrete slash-free text keys. -/
theorem c7_path_injectivity_witness :
    [Value.text "x", Value.text "y"] =
      ([Value.text "x", Value.text "y"] : List Value) :=
  c7_path_injectivity ["a", "b"] [Value.text "x", Value.text "y"]
    [Value.text "x", Value.text "y"] (by decide) (by decide)
    (by
      intro v hv
      rcases List.mem_cons.mp hv with rfl | hv
      · exact ⟨"x", rfl, by decide⟩
      · rcases List.mem_cons.mp hv with rfl | hv
        · exact ⟨"y", rfl, by decide⟩
        · simp at hv)
    (by
      intro v hv
      rcases List.mem_cons.mp hv with rfl | hv
      · exact ⟨"x", rfl, by decide⟩
      · rcases List.mem_cons.mp hv with rfl | hv
        · exact ⟨"y", rfl, by decide⟩
        · simp at hv)
    rfl

/-- C1, counterexample: a row whose partition-column value is `NULL` is
discovered by `SELECT DISTINCT` but matched by no `col = ?` filter, so the
partitioned export writes none of the table's rows: the union of partition
outputs is empty while the table has one row, and the full run performs no
batch write at all. -/
theorem c1_counterexample :
    distinctCombos ⟨["a"], [[Value.null]]⟩ ["a"] = [[Value.null]] ∧
    partitionRows ⟨["a"], [[Value.null]]⟩ ["a"] [] [Value.null] = [] ∧
    Table.rows ⟨["a"], [[Value.null]]⟩ = [[Value.null]] ∧
    (sqlite_to_parquet true ⟨["a"], [[Value.null]]⟩ (some ["a"])
      100000 none).trace.all (fun e => !e.isWriteBatch) = true := by
  decide

/-- C1, amended: unconditionally — including runs that abort on an error —
no row is ever written for two distinct partition keys (the partition
outputs are pairwise disjoint); and when every discovered partition
exports without error, the multiset union of the written partition rows is
exactly the table rows whose partition-column values contain no `NULL`;
rows with a `NULL` partition value are silently dropped. -/
theorem c1_partition_union (t : Table) (pcols ocols : List String)
    (cs : Int) :
    (∀ k1 ∈ distinctCombos t pcols, ∀ k2 ∈ distinctCombos t pcols,
      ∀ r, r ∈ partWrittenRows t pcols ocols cs k1 →
        r ∈ partWrittenRows t pcols ocols cs k2 → k1 = k2) ∧
    ((∀ k ∈ distinctCombos t pcols,
        (runPartition t pcols ocols cs k).2.2 = none) →
      ((distinctCombos t pcols).map fun k =>
        partWrittenRows t pcols ocols cs k).flatten.Perm
        (t.rows.filter fun r => noNullKey (projKey t pcols r))) := by
  constructor
  · intro k1 hk1 k2 hk2 r hr1 hr2
    exact partitionRows_disjoint t pcols ocols (combos_length hk1)
      (combos_length hk2) (partWritten_subset hr1) (partWritten_subset hr2)
  · intro hnerr
    have hmap : ((distinctCombos t pcols).map fun k =>
        partWrittenRows t pcols ocols cs k) =
        (distinctCombos t pcols).map fun k => partitionRows t pcols ocols k :=
      List.map_congr_left fun k hk => partWritten_eq_of_ok (hnerr k hk)
    rw [hmap]
    exact partition_union_perm t pcols ocols

/-- Witness for C1 (amended) on the three-row scenario table of the spec,
partitioned by symbol: every partition succeeds and the union of the
written partition rows recovers the table. -/
theorem c1_partition_union_witness :
    (∀ k ∈ distinctCombos ⟨["sym", "price"],
        [[Value.text "BTC", Value.int 10], [Value.text "BTC", Value.int 11],
          [Value.text "ETH", Value.int 5]]⟩ ["sym"],
      (runPartition ⟨["sym", "price"],
        [[Value.text "BTC", Value.int 10], [Value.text "BTC", Value.int 11],
          [Value.text "ETH", Value.int 5]]⟩ ["sym"] [] 2 k).2.2 = none) ∧
    ((distinctCombos ⟨["sym", "price"],
        [[Value.text "BTC", Value.int 10], [Value.text "BTC", Value.int 11],
          [Value.text "ETH", Value.int 5]]⟩ ["sym"]).map fun k =>
      partWrittenRows ⟨["sym", "price"],
        [[Value.text "BTC", Value.int 10], [Value.text "BTC", Value.int 11],
          [Value.text "ETH", Value.int 5]]⟩ ["sym"] [] 2 k).flatten.Perm
      (Table.rows ⟨["sym", "price"],
        [[Value.text "BTC", Value.int 10], [Value.text "BTC", Value.int 11],
          [Value.text "ETH", Value.int 5]]⟩ |>.filter fun r =>
        noNullKey (projKey ⟨["sym", "price"],
          [[Value.text "BTC", Value.int 10], [Value.text "BTC", Value.int 11],
            [Value.text "ETH", Value.int 5]]⟩ ["sym"] r)) :=
  ⟨(by decide), (c1_partition_union ⟨["sym", "price"],
      [[Value.text "BTC", Value.int 10], [Value.text "BTC", Value.int 11],
        [Value.text "ETH", Value.int 5]]⟩ ["sym"] [] 2).2 (by decide)⟩

/-- C2, counterexample: on a column holding an integer and a `NULL`,
chunk size 1 infers `int64` for the first chunk and `object` for the
second, so the second write raises and only one row is written, while
chunk size 2 reads a single `float64` chunk and writes both rows — the
written content depends on the chunk size. -/
theorem c2_counterexample :
    unpartWrittenRows ⟨["v"], [[Value.int 7], [Value.null]]⟩ [] 1 ≠
      unpartWrittenRows ⟨["v"], [[Value.int 7], [Value.null]]⟩ [] 2 ∧
    (unpartWrittenRows ⟨["v"], [[Value.int 7], [Value.null]]⟩ [] 1).length
      = 1 ∧
    (unpartWrittenRows ⟨["v"], [[Value.int 7], [Value.null]]⟩ [] 2).length
      = 2 := by
  decide

/-- C2, amended: for chunk-stable tables (each column all-integer or
integer-free, so every chunk infers the same schema and no write fails),
the chunk size changes neither the rows written to the unpartitioned
output nor the rows written for any partition key — content and order are
chunk-size independent. -/
theorem c2_chunksize_invariance (t : Table) (ocols : List String)
    (cs1 cs2 : Int) (hst : stableTable t) (hvo : t.validCols ocols = true)
    (_h1 : 1 ≤ cs1) (_h2 : 1 ≤ cs2) :
    unpartWrittenRows t ocols cs1 = unpartWrittenRows t ocols cs2 ∧
    ∀ (pcols : List String) (key : List Value), t.validCols pcols = true →
      partWrittenRows t pcols ocols cs1 key =
        partWrittenRows t pcols ocols cs2 key := by
  constructor
  · rw [unpartWritten_eq hst hvo, unpartWritten_eq hst hvo]
  · intro pcols key hvp
    rw [partWritten_eq_of_uniform key hst hvp hvo,
      partWritten_eq_of_uniform key hst hvp hvo]

/-- Witness for C2 (amended) on a stable two-row integer table at chunk
sizes 1 and 3. -/
theorem c2_chunksize_invariance_witness :
    stableTable ⟨["v"], [[Value.int 1], [Value.int 2]]⟩ ∧
    unpartWrittenRows ⟨["v"], [[Value.int 1], [Value.int 2]]⟩ [] 1 =
      unpartWrittenRows ⟨["v"], [[Value.int 1], [Value.int 2]]⟩ [] 3 :=
  ⟨(by
      intro i hi
      have h0 : i = 0 := Nat.lt_one_iff.mp hi
      subst h0
      left
      intro r hr
      rcases List.mem_cons.mp hr with rfl | hr
      · decide
      rcases List.mem_cons.mp hr with rfl | hr
      · decide
      simp at hr),
    (c2_chunksize_invariance ⟨["v"], [[Value.int 1], [Value.int 2]]⟩
      [] 1 3 (by
        intro i hi
        have h0 : i = 0 := Nat.lt_one_iff.mp hi
        subst h0
        left
        intro r hr
        rcases List.mem_cons.mp hr with rfl | hr
        · decide
        rcases List.mem_cons.mp hr with rfl | hr
        · decide
        simp at hr) (by decide) (by decide) (by decide)).1⟩

/-- C3, counterexample: partition `p=1` fails mid-write (chunk schema
mismatch), and although the error is only logged and nothing is raised,
the discovered partition `p=2` is never queried or exported, and nothing
in the result identifies which partition failed. -/
theorem c3_counterexample :
    [Value.int 2] ∈ distinctCombos ⟨["p", "v"],
      [[Value.int 1, Value.int 5], [Value.int 1, Value.null],
        [Value.int 2, Value.int 7]]⟩ ["p"] ∧
    Eff.queryPartition [Value.int 2] ∉ (sqlite_to_parquet true ⟨["p", "v"],
      [[Value.int 1, Value.int 5], [Value.int 1, Value.null],
        [Value.int 2, Value.int 7]]⟩ (some ["p"]) 1 none).trace ∧
    Eff.mkdirPartition ["p=2"] ∉ (sqlite_to_parquet true ⟨["p", "v"],
      [[Value.int 1, Value.int 5], [Value.int 1, Value.null],
        [Value.int 2, Value.int 7]]⟩ (some ["p"]) 1 none).trace ∧
    (sqlite_to_parquet true ⟨["p", "v"],
      [[Value.int 1, Value.int 5], [Value.int 1, Value.null],
        [Value.int 2, Value.int 7]]⟩ (some ["p"]) 1 none).raised = none ∧
    Eff.logError (errLogMsg schemaMismatchMsg) ∈ (sqlite_to_parquet true
      ⟨["p", "v"], [[Value.int 1, Value.int 5], [Value.int 1, Value.null],
        [Value.int 2, Value.int 7]]⟩ (some ["p"]) 1 none).trace := by
  decide

/-- C3, amended: whenever any one discovered partition fails — after any
number of earlier partitions succeeded — the error is caught at the top
level and logged and the call returns without raising, but the discovered
partitions after the failing one are not exported (their queries never
run) and no per-partition failure report is produced. -/
theorem c3_failure_handling (t : Table) (pcols : List String)
    (ob : Option (List String)) (cs : Int) (ks1 : List (List Value))
    (k : List Value) (ks2 : List (List Value)) (err : String)
    (hpc : pcols.isEmpty = false)
    (hq : distinctQuery t pcols = .ok (ks1 ++ k :: ks2))
    (hok : ∀ x ∈ ks1, (runPartition t pcols (ob.getD []) cs x).2.2 = none)
    (hfail : (runPartition t pcols (ob.getD []) cs k).2.2 = some err) :
    (sqlite_to_parquet true t (some pcols) cs ob).raised = none ∧
    Eff.logError (errLogMsg err) ∈
      (sqlite_to_parquet true t (some pcols) cs ob).trace ∧
    ∀ k2 ∈ ks2, Eff.queryPartition k2 ∉
      (sqlite_to_parquet true t (some pcols) cs ob).trace := by
  obtain ⟨hcombos, hvp⟩ := distinctQuery_ok_combos hq
  obtain ⟨hrperr, hrpmem⟩ := runPartitions_prefix_err ks1 ks2 hok hfail
  have hrm : runMode t (some pcols) (ob.getD []) cs =
      runPartitionedMode t pcols (ob.getD []) cs := by
    unfold runMode
    dsimp only
    rw [if_neg (by simp [hpc])]
  have hmode : runPartitionedMode t pcols (ob.getD []) cs =
      ([Eff.logInfo ("Starting partitioned dump by " ++ toString pcols
          ++ "..."),
        Eff.queryDistinct pcols,
        Eff.logInfo ("Found " ++ toString (ks1 ++ k :: ks2).length
          ++ " distinct combinations."),
        Eff.mkdirOut]
          ++ (runPartitions t pcols (ob.getD []) cs (ks1 ++ k :: ks2)).1,
        some err) := by
    unfold runPartitionedMode
    rw [hq]
    dsimp only
    rw [hrperr]
    simp
  refine ⟨rfl, ?_, ?_⟩
  · show Eff.logError (errLogMsg err) ∈
      Eff.openConn :: ((runMode t (some pcols) (ob.getD []) cs).1
        ++ (match (runMode t (some pcols) (ob.getD []) cs).2 with
          | some e => [Eff.logError (errLogMsg e)]
          | none => [])
        ++ [Eff.closeConn])
    rw [hrm, hmode]
    simp
  · intro k2 hk2 hmem
    have hmem2 : Eff.queryPartition k2 ∈
        Eff.openConn :: ((runPartitionedMode t pcols (ob.getD []) cs).1
          ++ (match (runPartitionedMode t pcols (ob.getD []) cs).2 with
            | some e => [Eff.logError (errLogMsg e)]
            | none => [])
          ++ [Eff.closeConn]) := by
      rw [← hrm]
      exact hmem
    rw [hmode] at hmem2
    simp only [List.mem_cons, List.mem_append, List.mem_singleton,
      List.not_mem_nil, or_false, reduceCtorEq, false_or] at hmem2
    have hnd : (ks1 ++ k :: ks2).Nodup := by
      rw [hcombos]
      exact nodup_distinctCombos t pcols
    obtain ⟨hnd1, hnd2, hdisj⟩ := List.nodup_append.mp hnd
    rcases hrpmem k2 hmem2 with h2 | h2
    · exact hdisj h2 (List.mem_cons_of_mem _ hk2)
    · exact (List.nodup_cons.mp hnd2).1 (h2 ▸ hk2)

/-- Witness for C3 (amended) at a concrete three-partition table whose
second partition fails on a chunk-schema mismatch after the first
succeeded: the third partition is never queried. -/
theorem c3_failure_handling_witness :
    (sqlite_to_parquet true ⟨["g", "w"],
      [[Value.int 3, Value.int 8], [Value.int 4, Value.int 1],
        [Value.int 4, Value.null], [Value.int 5, Value.int 2]]⟩
      (some ["g"]) 1 none).raised = none ∧
    Eff.logError (errLogMsg schemaMismatchMsg) ∈ (sqlite_to_parquet true
      ⟨["g", "w"], [[Value.int 3, Value.int 8], [Value.int 4, Value.int 1],
        [Value.int 4, Value.null], [Value.int 5, Value.int 2]]⟩
      (some ["g"]) 1 none).trace ∧
    Eff.queryPartition [Value.int 5] ∉ (sqlite_to_parquet true
      ⟨["g", "w"], [[Value.int 3, Value.int 8], [Value.int 4, Value.int 1],
        [Value.int 4, Value.null], [Value.int 5, Value.int 2]]⟩
      (some ["g"]) 1 none).trace := by
  have H := c3_failure_handling ⟨["g", "w"],
    [[Value.int 3, Value.int 8], [Value.int 4, Value.int 1],
      [Value.int 4, Value.null], [Value.int 5, Value.int 2]]⟩ ["g"] none 1
    [[Value.int 3]] [Value.int 4] [[Value.int 5]] schemaMismatchMsg rfl rfl
    (by decide) rfl
  exact ⟨H.1, H.2.1, H.2.2 [Value.int 5] (by decide)⟩

